import Mathlib

/-!
Verification of the NBER transcript-explorer chat pipeline.

The development shallowly embeds two components of the repository:

* the Upstream Proxy, a Vercel edge function that forwards a chat request
  to a list of candidate upstream endpoints with a fallback policy, and

* the frontend Stream Consumer, which builds the chat request from a
  transcript and a message history, sends it to the Proxy, and decodes the
  streamed answer incrementally.

Machine effects are made explicit: the upstream network is a pair of
functions from endpoint URL to a response or a transport error, and each
run returns both the HTTP response and the ordered trace of upstream
requests that were issued.
-/

namespace NBER

/-- Status test corresponding to the ok field of a fetch Response:
the status lies in the range 200 to 299. -/
def isOkStatus (s : Nat) : Bool := decide (200 ≤ s ∧ s < 300)

namespace Proxy

/-- Response obtained from one upstream fetch: HTTP status, the text of the
body (as read by text()), the statusText, the optional content-type header
and an identifier standing for the unread body stream. -/
structure UpstreamResp where
  status : Nat
  bodyText : String
  statusTextF : String
  contentType : Option String
  streamId : Nat
deriving DecidableEq

/-- Error text recorded after a failed candidate: the body text, or the
statusText when the body text is empty, mirroring the expression
(await upstream.text()) || upstream.statusText. -/
def errTextOf (r : UpstreamResp) : String :=
  if r.bodyText = "" then r.statusTextF else r.bodyText

/-- One upstream request issued by the Proxy, recorded in list order:
either a POST to a candidate URL or a GET to a candidate base URL. -/
inductive Ev where
  | post (url : String)
  | get (url : String)
deriving DecidableEq

/-- Body of the HTTP response the Proxy returns to its caller. -/
inductive RespBody where
  | empty
  | text (t : String)
  | stream (s : Nat)
deriving DecidableEq

/-- HTTP response the Proxy returns to its caller. -/
structure ProxyResponse where
  status : Nat
  body : RespBody
  headers : List (String × String)
deriving DecidableEq

/-- CORS headers attached to the preflight answer. -/
def corsHeaders : List (String × String) :=
  [("Access-Control-Allow-Origin", "*"),
   ("Access-Control-Allow-Methods", "POST, OPTIONS"),
   ("Access-Control-Allow-Headers", "Content-Type, Accept"),
   ("Access-Control-Max-Age", "86400")]

/-- Headers attached to a successful streamed response: content type taken
from upstream with a default of text/event-stream, no-cache and a wildcard
allow-origin. -/
def streamHeaders (ct : Option String) : List (String × String) :=
  [("Content-Type", ct.getD ("text/event-stream")),
   ("Cache-Control", "no-cache"),
   ("Access-Control-Allow-Origin", "*")]

/-- Response returned on the first successful candidate: upstream status,
the unread upstream body stream, and the streaming headers. -/
def streamResponse (r : UpstreamResp) : ProxyResponse :=
  ⟨r.status, RespBody.stream r.streamId, streamHeaders r.contentType⟩

/-- Parsed JSON body of the inbound chat request, with the fields the
Proxy inspects. -/
structure ChatBody where
  model : Option String
  messages : Option String
  api_key : Option String
  course_name : Option String
  streamFlag : Option Bool
  temperature : Option String
  retrieval_only : Option Bool

/-- Headers built for each POST candidate, mirroring lines 36 to 52 of the
edge function; they shape the upstream request and are not observed by the
trace model. -/
def postHeaders (b : ChatBody) : List (String × String) :=
  [("Content-Type", "application/json"), ("Accept", "text/event-stream")]
  ++ (match b.api_key with
      | some k => [("Authorization", "Bearer " ++ k), ("x-api-key", k)]
      | none => [])
  ++ (match b.course_name with
      | some c => [("x-course-name", c)]
      | none => [])

/-- Query parameters built for the GET fallback, mirroring lines 84 to 91
of the edge function; they shape the GET URLs and are not observed by the
trace model. -/
def getParams (b : ChatBody) : List (String × String) :=
  (match b.model with | some m => [("model", m)] | none => [])
  ++ (match b.messages with | some ms => [("messages", ms)] | none => [])
  ++ (match b.course_name with | some c => [("course_name", c)] | none => [])
  ++ (match b.streamFlag with
      | some s => [("stream", if s then ("true") else ("false"))] | none => [])
  ++ (match b.temperature with | some t => [("temperature", t)] | none => [])
  ++ (match b.retrieval_only with
      | some r => [("retrieval_only", if r then ("true") else ("false"))] | none => [])

/-- Outcome of the POST candidate loop. -/
inductive PostOutcome where
  | success (r : UpstreamResp)
  | exhausted (lastStatus : Nat) (lastErr : String)
  | threw (msg : String)
deriving DecidableEq

/-- POST candidate loop of the edge function: iterate the candidates in
order, return the first 2xx response, continue past a 405 recording it as
the last failure, stop at any other failure, and propagate a transport
exception to the outer catch. The second component is the trace of
requests issued. -/
def postLoop (last : Nat × String) :
    List (String × Except String UpstreamResp) → PostOutcome × List Ev
  | [] => (PostOutcome.exhausted last.1 last.2, [])
  | (url, Except.error m) :: _ => (PostOutcome.threw m, [Ev.post url])
  | (url, Except.ok r) :: rest =>
    if isOkStatus r.status then
      (PostOutcome.success r, [Ev.post url])
    else if r.status = 405 then
      let next := postLoop (r.status, errTextOf r) rest
      (next.1, Ev.post url :: next.2)
    else
      (PostOutcome.exhausted r.status (errTextOf r), [Ev.post url])

/-- Outcome of the GET fallback loop. -/
inductive GetOutcome where
  | success (r : UpstreamResp)
  | failed (lastStatus : Nat) (lastErr : String)
deriving DecidableEq

/-- GET fallback loop of the edge function: same iteration policy as the
POST loop, except that a transport exception is swallowed by the inner
catch, leaving the last status and error text as they were before the
throwing iteration. -/
def getLoop (last : Nat × String) :
    List (String × Except String UpstreamResp) → GetOutcome × List Ev
  | [] => (GetOutcome.failed last.1 last.2, [])
  | (url, Except.error _) :: _ => (GetOutcome.failed last.1 last.2, [Ev.get url])
  | (url, Except.ok r) :: rest =>
    if isOkStatus r.status then
      (GetOutcome.success r, [Ev.get url])
    else if r.status = 405 then
      let next := getLoop (r.status, errTextOf r) rest
      (next.1, Ev.get url :: next.2)
    else
      (GetOutcome.failed r.status (errTextOf r), [Ev.get url])

/-- Body of the final failure response: it embeds the last-seen status and
the last-seen upstream error text. -/
def finalErrorText (s : Nat) (e : String) : String :=
  "UIUC Chat upstream error (" ++ toString s ++ "): " ++ e

/-- Candidate endpoint list hard-coded in the edge function. -/
def endpoints : List String :=
  ["https://uiuc.chat/api/chat-api/chat",
   "https://uiuc.chat/api/chat-api/chat/",
   "https://uiuc.chat/chat-api/chat",
   "https://uiuc.chat/chat-api/chat/"]

/-- Edge-function handler, parameterised by the ordered candidate list and
by the upstream environment (one response function for POST requests and
one for GET requests, indexed by candidate URL). It returns the response
to the caller paired with the ordered trace of upstream requests. -/
def handlerWith (eps : List String) (method : String)
    (body : Except String ChatBody)
    (post get : String → Except String UpstreamResp) :
    ProxyResponse × List Ev :=
  if method = "OPTIONS" then
    (⟨204, RespBody.empty, corsHeaders⟩, [])
  else if method ≠ "POST" then
    (⟨405, RespBody.text ("Method not allowed"), []⟩, [])
  else
    match body with
    | Except.error m => (⟨500, RespBody.text m, []⟩, [])
    | Except.ok _ =>
      let pr := postLoop (500, "") (eps.map (fun u => (u, post u)))
      match pr.1 with
      | PostOutcome.success r => (streamResponse r, pr.2)
      | PostOutcome.threw m => (⟨500, RespBody.text m, []⟩, pr.2)
      | PostOutcome.exhausted ls le =>
        let gr := getLoop (ls, le) (eps.map (fun u => (u, get u)))
        match gr.1 with
        | GetOutcome.success r => (streamResponse r, pr.2 ++ gr.2)
        | GetOutcome.failed ls2 le2 =>
          (⟨ls2, RespBody.text (finalErrorText ls2 le2), []⟩, pr.2 ++ gr.2)

/-- Handler with the candidate list of the source file. -/
def handler (method : String) (body : Except String ChatBody)
    (post get : String → Except String UpstreamResp) :
    ProxyResponse × List Ev :=
  handlerWith endpoints method body post get

end Proxy

namespace Frontend

/-- Text is modelled as a list of characters, matching the per-character
operations of the frontend (substring, interpolation, concatenation). -/
abbrev Txt := List Char

/-- Sentinel substituted for an empty transcript excerpt, from the
expression transcript.substring(0, 15000) || (the sentinel). -/
def noTranscriptText : Txt := "No transcript available".toList

/-- Transcript excerpt embedded in the request content: the first 15000
characters, or the sentinel when that prefix is empty (an empty string is
falsy in the source expression). -/
def transcriptExcerpt (transcript : Txt) : Txt :=
  let t := transcript.take 15000
  if t = [] then noTranscriptText else t

/-- Chat message as sent to and by the frontend. -/
structure ChatMessage where
  role : String
  content : Txt
deriving DecidableEq

/-- Content of the last message of the history, from the expression
messages[messages.length - 1]?.content || (empty). -/
def lastUserMessage (messages : List ChatMessage) : Txt :=
  match messages.getLast? with
  | some m => m.content
  | none => []

/-- Presenter names joined with a comma and a space. -/
def presentersText (names : List Txt) : Txt :=
  List.intercalate (", ".toList) names

/-- First fixed piece of the combined message template. -/
def cmPart1 : Txt :=
  "Here is a transcript from the NBER Economics of Transformative AI Workshop:\n\n**Video:** ".toList

/-- Template piece between the title and the presenters. -/
def cmPart2 : Txt := "\n**Presenters:** ".toList

/-- Template piece between the presenters and the transcript excerpt. -/
def cmPart3 : Txt := "\n\n**Transcript:**\n".toList

/-- Template piece between the transcript excerpt and the question. -/
def cmPart4 : Txt := "\n\n**Question:** ".toList

/-- Final fixed piece of the combined message template. -/
def cmPart5 : Txt :=
  "\n\nPlease answer based on the transcript above. Be concise and cite specific points when relevant.".toList

/-- Combined context-plus-question content built by chatWithVideo: the
template interpolating the title, the joined presenter names, the
transcript excerpt and the content of the last message. -/
def combinedMessage (title presenters transcript : Txt)
    (messages : List ChatMessage) : Txt :=
  cmPart1 ++ title ++ cmPart2 ++ presenters ++ cmPart3
    ++ transcriptExcerpt transcript ++ cmPart4
    ++ lastUserMessage messages ++ cmPart5

/-- System prompt sent as the first message of every request. -/
def systemPrompt : Txt :=
  "You are a helpful AI assistant. Answer questions based ONLY on the information provided. Do not add document citations.".toList

/-- Model name sent in every request. -/
def modelName : String := "Qwen/Qwen2.5-VL-72B-Instruct"

/-- JSON body of the request chatWithVideo sends to the Proxy. The
temperature field holds the JSON numeral as written in the source. -/
structure ChatRequestBody where
  model : String
  messages : List ChatMessage
  api_key : String
  course_name : String
  streamFlag : Bool
  temperature : String
  retrieval_only : Bool
deriving DecidableEq

/-- Request body built by chatWithVideo: a fixed model name, a two-element
message list (system prompt and combined content over the joined presenter
names), the key and course from the environment, streaming on, temperature
0.7, retrieval off. -/
def chatWithVideoRequest (apiKey courseName : String) (title : Txt)
    (presenterNames : List Txt) (transcript : Txt)
    (messages : List ChatMessage) : ChatRequestBody :=
  ⟨modelName,
   [⟨"system", systemPrompt⟩,
    ⟨"user", combinedMessage title (presentersText presenterNames)
        transcript messages⟩],
   apiKey, courseName, true, "0.7", false⟩

/-- Response of the Proxy as seen by the frontend fetch: status, body text
(as read by text() on the error path), statusText, and an identifier for
the unread body stream. -/
structure FrontResp where
  status : Nat
  bodyText : Txt
  statusTextF : Txt
  streamId : Nat
deriving DecidableEq

/-- Fixed first part of the error message thrown on a non-2xx response. -/
def errPart : Txt := "UIUC Chat API error: ".toList

/-- Response handling shared by chatWithVideo and chatWithAllVideos: on a
2xx response the body stream is handed to the stream parser, otherwise an
error is thrown whose message appends the body text (or the statusText
when the body text is empty) to a fixed prefix. -/
def chatResponseOutcome (r : FrontResp) : Except Txt Nat :=
  if isOkStatus r.status then Except.ok r.streamId
  else Except.error
    (errPart ++ (if r.bodyText = [] then r.statusTextF else r.bodyText))

/-- Decides whether the first list occurs at the head of the second. -/
def startsSeg : Txt → Txt → Bool
  | [], _ => true
  | _ :: _, [] => false
  | a :: as, b :: bs => a == b && startsSeg as bs

/-- Decides whether the first list occurs contiguously anywhere in the
second. -/
def containsSeg (needle : Txt) : Txt → Bool
  | [] => needle.isEmpty
  | b :: t => startsSeg needle (b :: t) || containsSeg needle t

end Frontend

namespace UTF8

/-- Decides whether a byte is a UTF-8 continuation byte (high bits 10). -/
def isCont (b : Nat) : Bool := decide (0x80 ≤ b ∧ b < 0xC0)

/-- Total length of the encoded sequence announced by a lead byte; zero
for a byte that cannot start a sequence. -/
def needed (b : Nat) : Nat :=
  if b < 0x80 then 1
  else if b < 0xC0 then 0
  else if b < 0xE0 then 2
  else if b < 0xF0 then 3
  else if b < 0xF8 then 4
  else 0

/-- UTF-8 encoding of one code point (given as a natural number). -/
def encodeCp (c : Nat) : List Nat :=
  if c < 0x80 then [c]
  else if c < 0x800 then
    [0xC0 + c / 64, 0x80 + c % 64]
  else if c < 0x10000 then
    [0xE0 + c / 4096, 0x80 + c / 64 % 64, 0x80 + c % 64]
  else
    [0xF0 + c / 262144, 0x80 + c / 4096 % 64, 0x80 + c / 64 % 64, 0x80 + c % 64]

/-- UTF-8 encoding of a sequence of code points. -/
def utf8Encode (s : List Nat) : List Nat := (s.map encodeCp).flatten

/-- Code point assembled from a lead byte and its continuation bytes. -/
def decodeCp (b : Nat) (cont : List Nat) : Nat :=
  match cont with
  | [] => b
  | [c1] => (b - 0xC0) * 64 + (c1 - 0x80)
  | [c1, c2] => (b - 0xE0) * 4096 + (c1 - 0x80) * 64 + (c2 - 0x80)
  | [c1, c2, c3] =>
    (b - 0xF0) * 262144 + (c1 - 0x80) * 4096 + (c2 - 0x80) * 64 + (c3 - 0x80)
  | _ => 0xFFFD

/-- One step of the incremental text decoder, modelling TextDecoder with
the stream option: the state is the output decoded so far together with
the buffered bytes of a not yet complete sequence. A complete sequence is
emitted as a code point; a byte that cannot continue the buffered
sequence, or cannot start one, yields the replacement code point. -/
def step (s : List Nat × List Nat) (b : Nat) : List Nat × List Nat :=
  match s with
  | (out, []) =>
    if needed b = 1 then (out ++ [b], [])
    else if needed b = 0 then (out ++ [0xFFFD], [])
    else (out, [b])
  | (out, p :: ps) =>
    if isCont b then
      if ps.length + 2 = needed p then (out ++ [decodeCp p (ps ++ [b])], [])
      else (out, p :: (ps ++ [b]))
    else
      if needed b = 1 then (out ++ [0xFFFD, b], [])
      else if needed b = 0 then (out ++ [0xFFFD, 0xFFFD], [])
      else (out ++ [0xFFFD], [b])

/-- Decoding of one delivered chunk from a given buffer of pending bytes:
the code points decoded from this chunk and the new pending buffer. -/
def decodeChunk (pend : List Nat) (chunk : List Nat) : List Nat × List Nat :=
  List.foldl step ([], pend) chunk

/-- Stream-parsing loop of parseStreamingResponse, threading the decoder
buffer across chunks: each chunk is decoded with the stream option and
yielded when the decoded text is non-empty. No final flush is performed
when the stream ends, matching the source. -/
def parseChunks (pend : List Nat) : List (List Nat) → List (List Nat)
  | [] => []
  | c :: cs =>
    let r := decodeChunk pend c
    (if r.1 = [] then [] else [r.1]) ++ parseChunks r.2 cs

/-- Fragments yielded by parseStreamingResponse over a list of delivered
byte chunks, each fragment given as the list of decoded code points. -/
def parseStreamingResponse (chunks : List (List Nat)) : List (List Nat) :=
  parseChunks [] chunks

/-- Validity of a code point: inside the Unicode range. -/
abbrev ValidCp (c : Nat) : Prop := c < 0x110000

/-- Validity of a sequence of code points. -/
abbrev ValidSeq (s : List Nat) : Prop := ∀ c ∈ s, ValidCp c

/-- Pending buffers reachable by the decoder: either empty, or a lead byte
followed by too few continuation bytes. -/
def IncompleteBuf (p : List Nat) : Prop :=
  p = [] ∨ ∃ b t, p = b :: t ∧ t.length + 2 ≤ needed b ∧ t.all isCont = true

end UTF8

namespace Wit

open Proxy Frontend

/-- Concrete 405 upstream response used in concrete runs. -/
def resp405 : UpstreamResp := ⟨405, "no post here", "Method Not Allowed", none, 0⟩

/-- Concrete 200 upstream response used in concrete runs. -/
def resp200 : UpstreamResp := ⟨200, "", "OK", some ("text/event-stream"), 7⟩

/-- Concrete 400 upstream response used in concrete runs. -/
def resp400 : UpstreamResp := ⟨400, "bad request", "Bad Request", none, 1⟩

/-- Concrete 404 upstream response used in concrete runs. -/
def resp404 : UpstreamResp := ⟨404, "not found", "Not Found", none, 2⟩

/-- First candidate URL of the source list. -/
def ep1 : String := "https://uiuc.chat/api/chat-api/chat"

/-- Second candidate URL of the source list. -/
def ep2 : String := "https://uiuc.chat/api/chat-api/chat/"

/-- Concrete upstream POST environment: 405 on the first candidate, 200
elsewhere. -/
def post405then200 : String → Except String UpstreamResp := fun u =>
  if u = ep1 then Except.ok resp405 else Except.ok resp200

/-- Concrete upstream environment answering 400 everywhere. -/
def env400 : String → Except String UpstreamResp := fun _ => Except.ok resp400

/-- Concrete upstream environment answering 404 everywhere. -/
def env404 : String → Except String UpstreamResp := fun _ => Except.ok resp404

/-- Concrete upstream environment answering 405 everywhere. -/
def env405 : String → Except String UpstreamResp := fun _ => Except.ok resp405

/-- Concrete inbound chat body with no optional fields. -/
def plainBody : ChatBody := ⟨none, none, none, none, none, none, none⟩

/-- Concrete upstream environment whose fetch always throws. -/
def envThrow : String → Except String UpstreamResp :=
  fun _ => Except.error ("network down")

/-- Concrete transcript of exactly 15000 characters. -/
def longTranscript : Frontend.Txt := List.replicate 15000 'a'

/-- Concrete earlier message of a chat history. -/
def firstMsg : Frontend.ChatMessage := ⟨"user", "first question".toList⟩

/-- Concrete newest message of a chat history. -/
def secondMsg : Frontend.ChatMessage :=
  ⟨"user", "what does the speaker say".toList⟩

/-- Concrete two-message history: an earlier message and the new one. -/
def histMsgs : List Frontend.ChatMessage := [firstMsg, secondMsg]

/-- Concrete failed Proxy response as seen by the frontend. -/
def failResp : Frontend.FrontResp :=
  ⟨400, "bad request".toList, "Bad Request".toList, 3⟩

end Wit

namespace Proxy

lemma postLoop_success (pre : List (String × Except String UpstreamResp))
    (url : String) (u : UpstreamResp)
    (rest : List (String × Except String UpstreamResp)) (last : Nat × String)
    (h405 : ∀ p ∈ pre, ∃ r, p.2 = Except.ok r ∧ r.status = 405)
    (hok : isOkStatus u.status = true) :
    postLoop last (pre ++ (url, Except.ok u) :: rest) =
      (PostOutcome.success u, pre.map (fun p => Ev.post p.1) ++ [Ev.post url]) := by
  induction pre generalizing last with
  | nil => simp [postLoop, hok]
  | cons p ps ih =>
    obtain ⟨purl, pres⟩ := p
    obtain ⟨r, hr, hst⟩ := h405 (purl, pres) (List.mem_cons_self _ _)
    simp only at hr
    subst hr
    have h405s : ∀ q ∈ ps, ∃ r, q.2 = Except.ok r ∧ r.status = 405 :=
      fun q hq => h405 q (List.mem_cons_of_mem _ hq)
    simp only [List.cons_append, postLoop, hst]
    norm_num [isOkStatus]
    rw [ih _ h405s]
    exact ⟨rfl, rfl⟩

lemma postLoop_break (pre : List (String × Except String UpstreamResp))
    (url : String) (u : UpstreamResp)
    (rest : List (String × Except String UpstreamResp)) (last : Nat × String)
    (h405 : ∀ p ∈ pre, ∃ r, p.2 = Except.ok r ∧ r.status = 405)
    (hfail : isOkStatus u.status = false) (hne : u.status ≠ 405) :
    postLoop last (pre ++ (url, Except.ok u) :: rest) =
      (PostOutcome.exhausted u.status (errTextOf u),
        pre.map (fun p => Ev.post p.1) ++ [Ev.post url]) := by
  induction pre generalizing last with
  | nil => simp [postLoop, hfail, hne]
  | cons p ps ih =>
    obtain ⟨purl, pres⟩ := p
    obtain ⟨r, hr, hst⟩ := h405 (purl, pres) (List.mem_cons_self _ _)
    simp only at hr
    subst hr
    have h405s : ∀ q ∈ ps, ∃ r, q.2 = Except.ok r ∧ r.status = 405 :=
      fun q hq => h405 q (List.mem_cons_of_mem _ hq)
    simp only [List.cons_append, postLoop, hst]
    norm_num [isOkStatus]
    rw [ih _ h405s]
    exact ⟨rfl, rfl⟩

/-- C1: for every ordered candidate list whose first N candidates answer a
POST with status 405 and whose next candidate answers with a 2xx status,
the Proxy issues exactly those N+1 POST requests in list order and returns
the successful candidate response as a stream; in particular, with N = 0
no request is issued past the first candidate. -/
theorem C1_proxy_tries_candidates_in_order
    (preUrls : List String) (url : String) (restUrls : List String)
    (post get : String → Except String UpstreamResp) (b : ChatBody)
    (u : UpstreamResp)
    (h405 : ∀ v ∈ preUrls, ∃ r, post v = Except.ok r ∧ r.status = 405)
    (hu : post url = Except.ok u) (hok : isOkStatus u.status = true) :
    handlerWith (preUrls ++ url :: restUrls) "POST" (Except.ok b) post get =
      (streamResponse u, preUrls.map Ev.post ++ [Ev.post url]) := by
  have hmap : (preUrls ++ url :: restUrls).map (fun v => (v, post v)) =
      (preUrls.map (fun v => (v, post v))) ++
        (url, Except.ok u) :: restUrls.map (fun v => (v, post v)) := by
    simp [hu]
  have hpre : ∀ p ∈ preUrls.map (fun v => (v, post v)),
      ∃ r, p.2 = Except.ok r ∧ r.status = 405 := by
    intro p hp
    obtain ⟨v, hv, rfl⟩ := List.mem_map.mp hp
    exact h405 v hv
  simp only [handlerWith, reduceIte]
  rw [hmap, postLoop_success _ _ _ _ _ hpre hok]
  simp [List.map_map, Function.comp]

/-- C1 witness: with the concrete two-candidate environment answering 405
on the first URL and 200 on the second, the Proxy issues both requests in
order and returns the stream of the second. -/
theorem C1_witness :
    (∀ v ∈ [Wit.ep1], ∃ r, Wit.post405then200 v = Except.ok r ∧ r.status = 405) ∧
    Wit.post405then200 Wit.ep2 = Except.ok Wit.resp200 ∧
    isOkStatus Wit.resp200.status = true ∧
    handlerWith ([Wit.ep1] ++ Wit.ep2 :: []) "POST" (Except.ok Wit.plainBody)
        Wit.post405then200 Wit.env404 =
      (streamResponse Wit.resp200, [Wit.ep1].map Ev.post ++ [Ev.post Wit.ep2]) := by
  have h1 : ∀ v ∈ [Wit.ep1], ∃ r, Wit.post405then200 v = Except.ok r ∧
      r.status = 405 := by
    intro v hv
    rw [List.mem_singleton] at hv
    subst hv
    exact ⟨Wit.resp405, by simp [Wit.post405then200], by decide⟩
  have h2 : Wit.post405then200 Wit.ep2 = Except.ok Wit.resp200 := by
    simp [Wit.post405then200, Wit.ep1, Wit.ep2]
  exact ⟨h1, h2, by decide,
    C1_proxy_tries_candidates_in_order [Wit.ep1] Wit.ep2 [] Wit.post405then200
      Wit.env404 Wit.plainBody Wit.resp200 h1 h2 (by decide)⟩

/-- C5 counterexample: a POST whose body fails to parse is answered with
status 500 carrying the parse error message, not with a 4xx status; no
upstream request is issued. -/
theorem C5_counterexample :
    handler ("POST") (Except.error ("Unexpected token u in JSON"))
        Wit.env400 Wit.env404 =
      (⟨500, RespBody.text ("Unexpected token u in JSON"), []⟩, []) ∧
    ¬ (handler ("POST") (Except.error ("Unexpected token u in JSON"))
        Wit.env400 Wit.env404).1.status < 500 := by
  constructor
  · rfl
  · decide

/-- C5 amended: for every inbound POST whose body fails to deserialize as
JSON, the Proxy rejects it immediately with status 500 (not 4xx) carrying
the parse error message, and makes no upstream call. -/
theorem C5_amended_malformed_json_rejected (m : String)
    (post get : String → Except String UpstreamResp) :
    handler ("POST") (Except.error m) post get =
      (⟨500, RespBody.text m, []⟩, []) := by
  simp [handler, handlerWith]

/-- C2 counterexample: in the concrete run where the first POST candidate
answers 400, the Proxy does not stop after that candidate: it still issues
a GET fallback request, and the status surfaced to the caller is the 404
of that GET attempt, not the 400 of the POST candidate. -/
theorem C2_counterexample :
    (handler ("POST") (Except.ok Wit.plainBody) Wit.env400 Wit.env404).2 =
      [Ev.post Wit.ep1, Ev.get Wit.ep1] ∧
    (handler ("POST") (Except.ok Wit.plainBody) Wit.env400 Wit.env404).1.status
      = 404 := by
  constructor
  · rfl
  · rfl

/-- C2 amended: when a POST candidate fails with a status other than 405
after a run of 405 candidates, the Proxy stops iterating the POST
candidates at that candidate, but it still attempts the GET fallback over
the whole candidate list, seeded with that candidate status and error
text; the response to the caller is determined by the GET phase. -/
theorem C2_amended_non405_breaks_posts_but_gets_run
    (preUrls : List String) (url : String) (restUrls : List String)
    (post get : String → Except String UpstreamResp) (b : ChatBody)
    (u : UpstreamResp)
    (h405 : ∀ v ∈ preUrls, ∃ r, post v = Except.ok r ∧ r.status = 405)
    (hu : post url = Except.ok u)
    (hfail : isOkStatus u.status = false) (hne : u.status ≠ 405) :
    handlerWith (preUrls ++ url :: restUrls) "POST" (Except.ok b) post get =
      ((match (getLoop (u.status, errTextOf u)
            ((preUrls ++ url :: restUrls).map (fun v => (v, get v)))).1 with
        | GetOutcome.success r => streamResponse r
        | GetOutcome.failed ls le =>
          ⟨ls, RespBody.text (finalErrorText ls le), []⟩),
       (preUrls.map Ev.post ++ [Ev.post url]) ++
         (getLoop (u.status, errTextOf u)
           ((preUrls ++ url :: restUrls).map (fun v => (v, get v)))).2) := by
  have hmap : (preUrls ++ url :: restUrls).map (fun v => (v, post v)) =
      (preUrls.map (fun v => (v, post v))) ++
        (url, Except.ok u) :: restUrls.map (fun v => (v, post v)) := by
    simp [hu]
  have hpre : ∀ p ∈ preUrls.map (fun v => (v, post v)),
      ∃ r, p.2 = Except.ok r ∧ r.status = 405 := by
    intro p hp
    obtain ⟨v, hv, rfl⟩ := List.mem_map.mp hp
    exact h405 v hv
  simp only [handlerWith, reduceIte]
  rw [hmap, postLoop_break _ _ _ _ _ hpre hfail hne]
  dsimp only
  rcases hg : getLoop (u.status, errTextOf u)
      ((preUrls ++ url :: restUrls).map (fun v => (v, get v))) with ⟨go, gt⟩
  cases go <;> simp [List.map_map, Function.comp]

/-- C2 witness: the amended statement evaluated on a one-candidate list
answering 400 to the POST and 404 to the GET fallback. -/
theorem C2_witness :
    Wit.env400 Wit.ep1 = Except.ok Wit.resp400 ∧
    isOkStatus Wit.resp400.status = false ∧
    Wit.resp400.status ≠ 405 ∧
    handlerWith ([] ++ Wit.ep1 :: []) "POST" (Except.ok Wit.plainBody)
        Wit.env400 Wit.env404 =
      ((match (getLoop (Wit.resp400.status, errTextOf Wit.resp400)
            (([] ++ Wit.ep1 :: []).map (fun v => (v, Wit.env404 v)))).1 with
        | GetOutcome.success r => streamResponse r
        | GetOutcome.failed ls le =>
          ⟨ls, RespBody.text (finalErrorText ls le), []⟩),
       (List.map Ev.post [] ++ [Ev.post Wit.ep1]) ++
         (getLoop (Wit.resp400.status, errTextOf Wit.resp400)
           (([] ++ Wit.ep1 :: []).map (fun v => (v, Wit.env404 v)))).2) :=
  ⟨rfl, by decide, by decide,
    C2_amended_non405_breaks_posts_but_gets_run [] Wit.ep1 [] Wit.env400
      Wit.env404 Wit.plainBody Wit.resp400 (by simp) rfl (by decide)
      (by decide)⟩

lemma postLoop_allfail (eps : List String)
    (post : String → Except String UpstreamResp) (last : Nat × String)
    (h : ∀ v ∈ eps, ∃ r, post v = Except.ok r ∧ isOkStatus r.status = false) :
    ∃ ls le tr,
      postLoop last (eps.map (fun v => (v, post v))) =
        (PostOutcome.exhausted ls le, tr) ∧
      ((eps = [] ∧ tr = [] ∧ ls = last.1 ∧ le = last.2) ∨
       (∃ tr0 u r, tr = tr0 ++ [Ev.post u] ∧ u ∈ eps ∧
          post u = Except.ok r ∧ ls = r.status ∧ le = errTextOf r)) := by
  induction eps generalizing last with
  | nil => exact ⟨last.1, last.2, [], by simp [postLoop], Or.inl ⟨rfl, rfl, rfl, rfl⟩⟩
  | cons v vs ih =>
    obtain ⟨r, hr, hno⟩ := h v (List.mem_cons_self _ _)
    have hs : ∀ w ∈ vs, ∃ r, post w = Except.ok r ∧ isOkStatus r.status = false :=
      fun w hw => h w (List.mem_cons_of_mem _ hw)
    by_cases h405 : r.status = 405
    · obtain ⟨ls, le, tr, heq, hcase⟩ := ih (r.status, errTextOf r) hs
      rw [h405] at heq
      refine ⟨ls, le, Ev.post v :: tr, ?_, ?_⟩
      · simp only [List.map_cons, postLoop, hr, hno, h405, reduceIte, heq]
        simp [isOkStatus]
      · rcases hcase with ⟨_, htr, hls, hle⟩ | ⟨tr0, u, r0, htr, hu, hru, hls, hle⟩
        · subst htr
          exact Or.inr ⟨[], v, r, by simp, List.mem_cons_self _ _, hr,
            by simpa using hls, by simpa using hle⟩
        · subst htr
          exact Or.inr ⟨Ev.post v :: tr0, u, r0, by simp,
            List.mem_cons_of_mem _ hu, hru, hls, hle⟩
    · refine ⟨r.status, errTextOf r, [Ev.post v], ?_, ?_⟩
      · simp [postLoop, hr, hno, h405]
      · exact Or.inr ⟨[], v, r, by simp, List.mem_cons_self _ _, hr, rfl, rfl⟩

lemma getLoop_allfail (eps : List String)
    (get : String → Except String UpstreamResp) (last : Nat × String)
    (h : ∀ v ∈ eps, ∃ r, get v = Except.ok r ∧ isOkStatus r.status = false) :
    ∃ ls le tr,
      getLoop last (eps.map (fun v => (v, get v))) =
        (GetOutcome.failed ls le, tr) ∧
      ((eps = [] ∧ tr = [] ∧ ls = last.1 ∧ le = last.2) ∨
       (∃ tr0 u r, tr = tr0 ++ [Ev.get u] ∧ u ∈ eps ∧
          get u = Except.ok r ∧ ls = r.status ∧ le = errTextOf r)) := by
  induction eps generalizing last with
  | nil => exact ⟨last.1, last.2, [], by simp [getLoop], Or.inl ⟨rfl, rfl, rfl, rfl⟩⟩
  | cons v vs ih =>
    obtain ⟨r, hr, hno⟩ := h v (List.mem_cons_self _ _)
    have hs : ∀ w ∈ vs, ∃ r, get w = Except.ok r ∧ isOkStatus r.status = false :=
      fun w hw => h w (List.mem_cons_of_mem _ hw)
    by_cases h405 : r.status = 405
    · obtain ⟨ls, le, tr, heq, hcase⟩ := ih (r.status, errTextOf r) hs
      rw [h405] at heq
      refine ⟨ls, le, Ev.get v :: tr, ?_, ?_⟩
      · simp only [List.map_cons, getLoop, hr, hno, h405, reduceIte, heq]
        simp [isOkStatus]
      · rcases hcase with ⟨_, htr, hls, hle⟩ | ⟨tr0, u, r0, htr, hu, hru, hls, hle⟩
        · subst htr
          exact Or.inr ⟨[], v, r, by simp, List.mem_cons_self _ _, hr,
            by simpa using hls, by simpa using hle⟩
        · subst htr
          exact Or.inr ⟨Ev.get v :: tr0, u, r0, by simp,
            List.mem_cons_of_mem _ hu, hru, hls, hle⟩
    · refine ⟨r.status, errTextOf r, [Ev.get v], ?_, ?_⟩
      · simp [getLoop, hr, hno, h405]
      · exact Or.inr ⟨[], v, r, by simp, List.mem_cons_self _ _, hr, rfl, rfl⟩

/-- C7: first conjunct: when every candidate (POST and GET) answers with a
non-2xx status, the response status is the status of the last upstream
request of the trace (a GET to one of the candidates) and the body is the
diagnostic string embedding that status and its error text. Second
conjunct: when every candidate answers 405, the surfaced status is 405.
Third conjunct: when the very first POST fetch throws, so that no upstream
status was ever obtained, the Proxy answers 500 with the exception
message. -/
theorem C7_exhaustion_surfaces_last_seen_status :
    (∀ (post get : String → Except String UpstreamResp) (b : ChatBody),
      (∀ v ∈ endpoints, ∃ r, post v = Except.ok r ∧ isOkStatus r.status = false) →
      (∀ v ∈ endpoints, ∃ r, get v = Except.ok r ∧ isOkStatus r.status = false) →
      ∃ tr0 u r,
        (handler ("POST") (Except.ok b) post get).2 = tr0 ++ [Ev.get u] ∧
        u ∈ endpoints ∧ get u = Except.ok r ∧
        (handler ("POST") (Except.ok b) post get).1 =
          ⟨r.status, RespBody.text (finalErrorText r.status (errTextOf r)), []⟩) ∧
    (∀ (post get : String → Except String UpstreamResp) (b : ChatBody),
      (∀ v ∈ endpoints, ∃ r, post v = Except.ok r ∧ r.status = 405) →
      (∀ v ∈ endpoints, ∃ r, get v = Except.ok r ∧ r.status = 405) →
      (handler ("POST") (Except.ok b) post get).1.status = 405) ∧
    (∀ (post get : String → Except String UpstreamResp) (b : ChatBody)
        (m : String),
      post ("https://uiuc.chat/api/chat-api/chat") = Except.error m →
      handler ("POST") (Except.ok b) post get =
        (⟨500, RespBody.text m, []⟩,
         [Ev.post ("https://uiuc.chat/api/chat-api/chat")])) := by
  have partA : ∀ (post get : String → Except String UpstreamResp) (b : ChatBody),
      (∀ v ∈ endpoints, ∃ r, post v = Except.ok r ∧ isOkStatus r.status = false) →
      (∀ v ∈ endpoints, ∃ r, get v = Except.ok r ∧ isOkStatus r.status = false) →
      ∃ tr0 u r,
        (handler ("POST") (Except.ok b) post get).2 = tr0 ++ [Ev.get u] ∧
        u ∈ endpoints ∧ get u = Except.ok r ∧
        (handler ("POST") (Except.ok b) post get).1 =
          ⟨r.status, RespBody.text (finalErrorText r.status (errTextOf r)), []⟩ := by
    intro post get b hp hq
    obtain ⟨ls, le, tr1, hpl, _⟩ := postLoop_allfail endpoints post (500, "") hp
    obtain ⟨ls2, le2, tr2, hgl, hcase2⟩ := getLoop_allfail endpoints get (ls, le) hq
    have hh : handler ("POST") (Except.ok b) post get =
        (⟨ls2, RespBody.text (finalErrorText ls2 le2), []⟩, tr1 ++ tr2) := by
      simp only [handler, handlerWith, reduceIte]
      rw [hpl]
      dsimp only
      rw [hgl]
      simp
    rcases hcase2 with ⟨heps, _⟩ | ⟨tr0, u, r, htr2, hmem, hru, hls2, hle2⟩
    · exact absurd heps (by simp [endpoints])
    · refine ⟨tr1 ++ tr0, u, r, ?_, hmem, hru, ?_⟩
      · rw [hh, htr2]
        simp
      · rw [hh, hls2, hle2]
  refine ⟨partA, ?_, ?_⟩
  · intro post get b hp hq
    have hp2 : ∀ v ∈ endpoints, ∃ r, post v = Except.ok r ∧
        isOkStatus r.status = false := by
      intro v hv
      obtain ⟨r, h1, h2⟩ := hp v hv
      exact ⟨r, h1, by rw [h2]; decide⟩
    have hq2 : ∀ v ∈ endpoints, ∃ r, get v = Except.ok r ∧
        isOkStatus r.status = false := by
      intro v hv
      obtain ⟨r, h1, h2⟩ := hq v hv
      exact ⟨r, h1, by rw [h2]; decide⟩
    obtain ⟨tr0, u, r, _, hmem, hru, hresp⟩ := partA post get b hp2 hq2
    obtain ⟨r2, hru2, h4052⟩ := hq u hmem
    have hrr : r = r2 := by
      have := hru.symm.trans hru2
      exact Except.ok.inj this
    rw [hresp]
    rw [hrr]
    exact h4052
  · intro post get b m hm
    simp [handler, handlerWith, endpoints, postLoop, hm]

/-- C7 witness: concrete runs exercising the three conjuncts: every
candidate failing with 400 then 404, every candidate answering 405, and a
first fetch that throws. -/
theorem C7_witness :
    (∀ v ∈ endpoints, ∃ r, Wit.env400 v = Except.ok r ∧
        isOkStatus r.status = false) ∧
    (∀ v ∈ endpoints, ∃ r, Wit.env404 v = Except.ok r ∧
        isOkStatus r.status = false) ∧
    (∃ tr0 u r,
      (handler ("POST") (Except.ok Wit.plainBody) Wit.env400 Wit.env404).2 =
        tr0 ++ [Ev.get u] ∧
      u ∈ endpoints ∧ Wit.env404 u = Except.ok r ∧
      (handler ("POST") (Except.ok Wit.plainBody) Wit.env400 Wit.env404).1 =
        ⟨r.status, RespBody.text (finalErrorText r.status (errTextOf r)), []⟩) ∧
    (∀ v ∈ endpoints, ∃ r, Wit.env405 v = Except.ok r ∧ r.status = 405) ∧
    (handler ("POST") (Except.ok Wit.plainBody) Wit.env405 Wit.env405).1.status
      = 405 ∧
    Wit.envThrow ("https://uiuc.chat/api/chat-api/chat") =
      Except.error ("network down") ∧
    handler ("POST") (Except.ok Wit.plainBody) Wit.envThrow Wit.env404 =
      (⟨500, RespBody.text ("network down"), []⟩,
       [Ev.post ("https://uiuc.chat/api/chat-api/chat")]) := by
  have h400 : ∀ v ∈ endpoints, ∃ r, Wit.env400 v = Except.ok r ∧
      isOkStatus r.status = false := fun v _ => ⟨Wit.resp400, rfl, by decide⟩
  have h404 : ∀ v ∈ endpoints, ∃ r, Wit.env404 v = Except.ok r ∧
      isOkStatus r.status = false := fun v _ => ⟨Wit.resp404, rfl, by decide⟩
  have h405 : ∀ v ∈ endpoints, ∃ r, Wit.env405 v = Except.ok r ∧
      r.status = 405 := fun v _ => ⟨Wit.resp405, rfl, rfl⟩
  exact ⟨h400, h404,
    C7_exhaustion_surfaces_last_seen_status.1 Wit.env400 Wit.env404
      Wit.plainBody h400 h404,
    h405,
    C7_exhaustion_surfaces_last_seen_status.2.1 Wit.env405 Wit.env405
      Wit.plainBody h405 h405,
    rfl,
    C7_exhaustion_surfaces_last_seen_status.2.2 Wit.envThrow Wit.env404
      Wit.plainBody ("network down") rfl⟩

/-- C8: an OPTIONS request is answered directly with status 204, an empty
body and the permissive CORS headers (wildcard origin, methods including
POST, allowed headers covering Content-Type and Accept, and a max-age),
and no upstream request is issued. -/
theorem C8_options_preflight (body : Except String ChatBody)
    (post get : String → Except String UpstreamResp) :
    handler ("OPTIONS") body post get =
      (⟨204, RespBody.empty, corsHeaders⟩, []) ∧
    corsHeaders.lookup ("Access-Control-Allow-Origin") = some ("*") ∧
    corsHeaders.lookup ("Access-Control-Allow-Methods") = some ("POST, OPTIONS") ∧
    Frontend.containsSeg ("POST".toList) (("POST, OPTIONS").toList) = true ∧
    corsHeaders.lookup ("Access-Control-Allow-Headers") =
      some ("Content-Type, Accept") ∧
    Frontend.containsSeg (("Content-Type").toList)
      (("Content-Type, Accept").toList) = true ∧
    Frontend.containsSeg (("Accept").toList)
      (("Content-Type, Accept").toList) = true ∧
    corsHeaders.lookup ("Access-Control-Max-Age") = some ("86400") := by
  refine ⟨by simp [handler, handlerWith], ?_, ?_, ?_, ?_, ?_, ?_, ?_⟩
  all_goals decide

end Proxy

namespace Frontend

lemma startsSeg_self (l : Txt) : startsSeg l l = true := by
  induction l with
  | nil => rfl
  | cons a t ih => simp [startsSeg, ih]

lemma containsSeg_append (pre n : Txt) : containsSeg n (pre ++ n) = true := by
  induction pre with
  | nil =>
    cases n with
    | nil => rfl
    | cons a t => simp [containsSeg, startsSeg_self]
  | cons p ps ih => simp [containsSeg, ih]

/-- C4: for every transcript of at least 15000 characters, the content of
the user message sent upstream embeds exactly the first 15000 characters
of the transcript, which have length exactly 15000; the excerpt is a
function of the transcript alone, hence deterministic. -/
theorem C4_truncation_is_first_15000
    (apiKey courseName : String) (title : Txt) (names : List Txt)
    (transcript : Txt) (messages : List ChatMessage)
    (hlen : 15000 ≤ transcript.length) :
    (chatWithVideoRequest apiKey courseName title names transcript
        messages).messages =
      [⟨"system", systemPrompt⟩,
       ⟨"user", cmPart1 ++ title ++ cmPart2 ++ presentersText names ++ cmPart3
         ++ transcript.take 15000 ++ cmPart4 ++ lastUserMessage messages
         ++ cmPart5⟩] ∧
    (transcript.take 15000).length = 15000 := by
  have hl : (transcript.take 15000).length = 15000 := by
    rw [List.length_take]
    omega
  have hne : transcript.take 15000 ≠ [] := by
    intro h
    rw [h] at hl
    simp at hl
  exact ⟨by simp [chatWithVideoRequest, combinedMessage, transcriptExcerpt, hne],
    hl⟩

lemma longTranscript_length : Wit.longTranscript.length = 15000 := by
  simp only [Wit.longTranscript, List.length_replicate]

/-- C4 witness: the truncation statement evaluated on a concrete
15000-character transcript. -/
theorem C4_witness :
    15000 ≤ Wit.longTranscript.length ∧
    ((chatWithVideoRequest ("k") ("c") [] [] Wit.longTranscript
        []).messages =
      [⟨"system", systemPrompt⟩,
       ⟨"user", cmPart1 ++ [] ++ cmPart2 ++ presentersText [] ++ cmPart3
         ++ Wit.longTranscript.take 15000 ++ cmPart4 ++ lastUserMessage []
         ++ cmPart5⟩] ∧
     (Wit.longTranscript.take 15000).length = 15000) :=
  ⟨by simp only [longTranscript_length]; decide,
   C4_truncation_is_first_15000 ("k") ("c") [] [] Wit.longTranscript []
     (by simp only [longTranscript_length]; decide)⟩

/-- C10: with an empty transcript the content sent upstream embeds the
sentinel text in place of the excerpt, and more generally the excerpt is
never the empty string. -/
theorem C10_empty_transcript_gets_sentinel :
    (∀ (apiKey courseName : String) (title : Txt) (names : List Txt)
        (messages : List ChatMessage),
      (chatWithVideoRequest apiKey courseName title names [] messages).messages =
        [⟨"system", systemPrompt⟩,
         ⟨"user", cmPart1 ++ title ++ cmPart2 ++ presentersText names ++ cmPart3
           ++ noTranscriptText ++ cmPart4 ++ lastUserMessage messages
           ++ cmPart5⟩]) ∧
    (∀ t : Txt, transcriptExcerpt t ≠ []) := by
  constructor
  · intro apiKey courseName title names messages
    simp [chatWithVideoRequest, combinedMessage, transcriptExcerpt]
  · intro t
    unfold transcriptExcerpt
    by_cases h : t.take 15000 = []
    · simp [h, noTranscriptText]
    · simp [h]

set_option maxRecDepth 8000 in
/-- C6 counterexample: with a two-message history, the request sent to the
Proxy holds only two messages (system prompt and one combined user
message) and the content of the earlier history message appears nowhere in
them: the full prior message sequence is not forwarded. -/
theorem C6_counterexample :
    (chatWithVideoRequest ("k") ("c") ("T".toList) [("P".toList)]
        ("some transcript".toList) Wit.histMsgs).messages.length = 2 ∧
    containsSeg ("first question".toList)
      (List.flatten
        ((chatWithVideoRequest ("k") ("c") ("T".toList) [("P".toList)]
          ("some transcript".toList) Wit.histMsgs).messages.map
            (fun m => m.content))) = false := by
  constructor
  · rfl
  · decide

/-- C6 amended: the request body contains exactly two messages, the fixed
system prompt and a single user message whose content embeds only the last
message of the history: two histories with the same last message yield
identical requests. -/
theorem C6_amended_only_last_message_sent
    (apiKey courseName : String) (title : Txt) (names : List Txt)
    (transcript : Txt) (ms1 ms2 : List ChatMessage)
    (hlast : lastUserMessage ms1 = lastUserMessage ms2) :
    chatWithVideoRequest apiKey courseName title names transcript ms1 =
      chatWithVideoRequest apiKey courseName title names transcript ms2 ∧
    (chatWithVideoRequest apiKey courseName title names transcript
        ms1).messages.length = 2 := by
  constructor
  · simp [chatWithVideoRequest, combinedMessage, hlast]
  · rfl

/-- C6 witness: the amended statement evaluated on the concrete
two-message history and the history holding only its last message. -/
theorem C6_witness :
    lastUserMessage Wit.histMsgs = lastUserMessage [Wit.secondMsg] ∧
    (chatWithVideoRequest ("k") ("c") ("T".toList) [] ("tr".toList)
        Wit.histMsgs =
      chatWithVideoRequest ("k") ("c") ("T".toList) [] ("tr".toList)
        [Wit.secondMsg] ∧
     (chatWithVideoRequest ("k") ("c") ("T".toList) [] ("tr".toList)
        Wit.histMsgs).messages.length = 2) :=
  ⟨rfl,
   C6_amended_only_last_message_sent ("k") ("c") ("T".toList) [] ("tr".toList)
     Wit.histMsgs [Wit.secondMsg] rfl⟩

/-- C9 counterexample: on a concrete 400 response with body text, the
consumer raises an error whose message holds the body text but does not
mention the numeric status 400 anywhere. -/
theorem C9_counterexample :
    chatResponseOutcome Wit.failResp =
      Except.error (errPart ++ ("bad request".toList)) ∧
    containsSeg ("400".toList) (errPart ++ ("bad request".toList)) = false := by
  constructor
  · rfl
  · decide

/-- C9 amended: on every non-2xx response the consumer raises an error
rather than yielding an empty sequence; the error message carries the
response body text (or the statusText when the body is empty), though not
the numeric status. -/
theorem C9_amended_error_carries_body_text (r : FrontResp)
    (hfail : isOkStatus r.status = false) :
    chatResponseOutcome r =
      Except.error
        (errPart ++ (if r.bodyText = [] then r.statusTextF else r.bodyText)) ∧
    (r.bodyText ≠ [] →
      containsSeg r.bodyText
        (errPart ++ (if r.bodyText = [] then r.statusTextF else r.bodyText))
        = true) := by
  constructor
  · simp [chatResponseOutcome, hfail]
  · intro hne
    rw [if_neg hne]
    exact containsSeg_append _ _

/-- C9 witness: the amended statement evaluated on the concrete 400
response. -/
theorem C9_witness :
    isOkStatus Wit.failResp.status = false ∧
    (chatResponseOutcome Wit.failResp =
      Except.error
        (errPart ++ (if Wit.failResp.bodyText = [] then
          Wit.failResp.statusTextF else Wit.failResp.bodyText)) ∧
     (Wit.failResp.bodyText ≠ [] →
       containsSeg Wit.failResp.bodyText
         (errPart ++ (if Wit.failResp.bodyText = [] then
           Wit.failResp.statusTextF else Wit.failResp.bodyText)) = true)) :=
  ⟨by decide, C9_amended_error_carries_body_text Wit.failResp (by decide)⟩

end Frontend

namespace UTF8

lemma step_out (out p : List Nat) (b : Nat) :
    step (out, p) b = (out ++ (step ([], p) b).1, (step ([], p) b).2) := by
  cases p with
  | nil =>
    simp only [step]
    split_ifs <;> simp
  | cons q qs =>
    simp only [step]
    split_ifs <;> simp

lemma foldl_step_out (bs : List Nat) (out p : List Nat) :
    List.foldl step (out, p) bs =
      (out ++ (List.foldl step ([], p) bs).1,
       (List.foldl step ([], p) bs).2) := by
  induction bs generalizing out p with
  | nil => simp
  | cons b bs ih =>
    simp only [List.foldl_cons]
    rcases hs : step ([], p) b with ⟨o1, p1⟩
    rw [step_out out p b, hs]
    dsimp only
    rw [ih (out ++ o1) p1, ih o1 p1]
    simp [List.append_assoc]

lemma foldl_encodeCp (c : Nat) (hc : ValidCp c) :
    List.foldl step ([], []) (encodeCp c) = ([c], []) := by
  have hc4 : c < 0x110000 := hc
  rcases Nat.lt_or_ge c 0x80 with h1 | h1
  · have e : encodeCp c = [c] := by
      unfold encodeCp
      rw [if_pos h1]
    rw [e]
    simp only [List.foldl_cons, List.foldl_nil]
    have hn : needed c = 1 := by
      unfold needed
      rw [if_pos h1]
    simp [step, hn]
  rcases Nat.lt_or_ge c 0x800 with h2 | h2
  · have e : encodeCp c = [0xC0 + c / 64, 0x80 + c % 64] := by
      unfold encodeCp
      rw [if_neg (by omega), if_pos h2]
    have hn : needed (0xC0 + c / 64) = 2 := by
      unfold needed
      rw [if_neg (by omega), if_neg (by omega), if_pos (by omega)]
    have hcont : isCont (0x80 + c % 64) = true := by
      simp only [isCont, decide_eq_true_eq]
      omega
    have hdec : decodeCp (0xC0 + c / 64) [0x80 + c % 64] = c := by
      simp only [decodeCp]
      omega
    rw [e]
    simp only [List.foldl_cons, List.foldl_nil]
    have s1 : step ([], []) (0xC0 + c / 64) = ([], [0xC0 + c / 64]) := by
      simp [step, hn]
    rw [s1]
    have s2 : step ([], [0xC0 + c / 64]) (0x80 + c % 64) =
        ([decodeCp (0xC0 + c / 64) [0x80 + c % 64]], []) := by
      simp [step, hcont, hn]
    rw [s2, hdec]
  rcases Nat.lt_or_ge c 0x10000 with h3 | h3
  · have e : encodeCp c =
        [0xE0 + c / 4096, 0x80 + c / 64 % 64, 0x80 + c % 64] := by
      unfold encodeCp
      rw [if_neg (by omega), if_neg (by omega), if_pos h3]
    have hn : needed (0xE0 + c / 4096) = 3 := by
      unfold needed
      rw [if_neg (by omega), if_neg (by omega), if_neg (by omega),
        if_pos (by omega)]
    have hcont1 : isCont (0x80 + c / 64 % 64) = true := by
      simp only [isCont, decide_eq_true_eq]
      omega
    have hcont2 : isCont (0x80 + c % 64) = true := by
      simp only [isCont, decide_eq_true_eq]
      omega
    have hdec : decodeCp (0xE0 + c / 4096) [0x80 + c / 64 % 64, 0x80 + c % 64]
        = c := by
      simp only [decodeCp]
      omega
    rw [e]
    simp only [List.foldl_cons, List.foldl_nil]
    have s1 : step ([], []) (0xE0 + c / 4096) = ([], [0xE0 + c / 4096]) := by
      simp [step, hn]
    rw [s1]
    have s2 : step ([], [0xE0 + c / 4096]) (0x80 + c / 64 % 64) =
        ([], [0xE0 + c / 4096, 0x80 + c / 64 % 64]) := by
      simp [step, hcont1, hn]
    rw [s2]
    have s3 : step ([], [0xE0 + c / 4096, 0x80 + c / 64 % 64]) (0x80 + c % 64)
        = ([decodeCp (0xE0 + c / 4096) [0x80 + c / 64 % 64, 0x80 + c % 64]],
           []) := by
      simp [step, hcont2, hn]
    rw [s3, hdec]
  · have e : encodeCp c =
        [0xF0 + c / 262144, 0x80 + c / 4096 % 64, 0x80 + c / 64 % 64,
         0x80 + c % 64] := by
      unfold encodeCp
      rw [if_neg (by omega), if_neg (by omega), if_neg (by omega)]
    have hn : needed (0xF0 + c / 262144) = 4 := by
      unfold needed
      rw [if_neg (by omega), if_neg (by omega), if_neg (by omega),
        if_neg (by omega), if_pos (by omega)]
    have hcont1 : isCont (0x80 + c / 4096 % 64) = true := by
      simp only [isCont, decide_eq_true_eq]
      omega
    have hcont2 : isCont (0x80 + c / 64 % 64) = true := by
      simp only [isCont, decide_eq_true_eq]
      omega
    have hcont3 : isCont (0x80 + c % 64) = true := by
      simp only [isCont, decide_eq_true_eq]
      omega
    have hdec : decodeCp (0xF0 + c / 262144)
        [0x80 + c / 4096 % 64, 0x80 + c / 64 % 64, 0x80 + c % 64] = c := by
      simp only [decodeCp]
      omega
    rw [e]
    simp only [List.foldl_cons, List.foldl_nil]
    have s1 : step ([], []) (0xF0 + c / 262144) = ([], [0xF0 + c / 262144]) := by
      simp [step, hn]
    rw [s1]
    have s2 : step ([], [0xF0 + c / 262144]) (0x80 + c / 4096 % 64) =
        ([], [0xF0 + c / 262144, 0x80 + c / 4096 % 64]) := by
      simp [step, hcont1, hn]
    rw [s2]
    have s3 : step ([], [0xF0 + c / 262144, 0x80 + c / 4096 % 64])
        (0x80 + c / 64 % 64) =
        ([], [0xF0 + c / 262144, 0x80 + c / 4096 % 64, 0x80 + c / 64 % 64]) := by
      simp [step, hcont2, hn]
    rw [s3]
    have s4 : step ([], [0xF0 + c / 262144, 0x80 + c / 4096 % 64,
        0x80 + c / 64 % 64]) (0x80 + c % 64) =
        ([decodeCp (0xF0 + c / 262144)
           [0x80 + c / 4096 % 64, 0x80 + c / 64 % 64, 0x80 + c % 64]], []) := by
      simp [step, hcont3, hn]
    rw [s4, hdec]

lemma foldl_encode_append (s : List Nat) (hs : ValidSeq s) (rest : List Nat) :
    List.foldl step ([], []) (utf8Encode s ++ rest) =
      (s ++ (List.foldl step ([], []) rest).1,
       (List.foldl step ([], []) rest).2) := by
  induction s with
  | nil => simp [utf8Encode]
  | cons c cs ih =>
    have hc : ValidCp c := hs c (List.mem_cons_self _ _)
    have hcs : ValidSeq cs := fun x hx => hs x (List.mem_cons_of_mem _ hx)
    have e : utf8Encode (c :: cs) ++ rest =
        encodeCp c ++ (utf8Encode cs ++ rest) := by
      simp [utf8Encode]
    rw [e, List.foldl_append, foldl_encodeCp c hc,
      foldl_step_out (utf8Encode cs ++ rest) [c] [], ih hcs]
    simp

lemma cont_run_buffers (t : List Nat) (b : Nat) (ps : List Nat)
    (hlen : (ps ++ t).length + 2 ≤ needed b) (hall : t.all isCont = true) :
    List.foldl step ([], b :: ps) t = ([], b :: (ps ++ t)) := by
  induction t generalizing ps with
  | nil => simp
  | cons x xs ih =>
    simp only [List.all_cons, Bool.and_eq_true] at hall
    obtain ⟨hx, hxs⟩ := hall
    simp only [List.foldl_cons]
    have hne : ps.length + 2 ≠ needed b := by
      simp only [List.length_append, List.length_cons] at hlen
      omega
    have hstep : step ([], b :: ps) x = ([], b :: (ps ++ [x])) := by
      simp [step, hx, hne]
    rw [hstep, ih (ps ++ [x]) (by simp at hlen ⊢; omega) hxs]
    simp

lemma incomplete_foldl (p : List Nat) (hp : IncompleteBuf p) :
    List.foldl step ([], []) p = ([], p) := by
  rcases hp with rfl | ⟨b, t, rfl, hlen, hall⟩
  · rfl
  · simp only [List.foldl_cons]
    have h0 : step ([], []) b = ([], [b]) := by
      have h1 : needed b ≠ 1 := by omega
      have h2 : needed b ≠ 0 := by omega
      simp [step, h1, h2]
    rw [h0]
    have := cont_run_buffers t b [] (by simpa using hlen) hall
    simpa using this

lemma decodeChunk_from_pend (p bs : List Nat) (hp : IncompleteBuf p) :
    decodeChunk p bs = List.foldl step ([], []) (p ++ bs) := by
  unfold decodeChunk
  rw [List.foldl_append, incomplete_foldl p hp]

lemma encodeCp_head_needed (c : Nat) (hc : ValidCp c) :
    ∃ b t, encodeCp c = b :: t ∧ needed b = t.length + 1 ∧
      t.all isCont = true := by
  have hc4 : c < 0x110000 := hc
  rcases Nat.lt_or_ge c 0x80 with h1 | h1
  · refine ⟨c, [], ?_, ?_, rfl⟩
    · unfold encodeCp
      rw [if_pos h1]
    · unfold needed
      rw [if_pos h1]
      simp
  rcases Nat.lt_or_ge c 0x800 with h2 | h2
  · refine ⟨0xC0 + c / 64, [0x80 + c % 64], ?_, ?_, ?_⟩
    · unfold encodeCp
      rw [if_neg (by omega), if_pos h2]
    · unfold needed
      rw [if_neg (by omega), if_neg (by omega), if_pos (by omega)]
      simp
    · simp only [List.all_cons, List.all_nil, Bool.and_true, isCont,
        decide_eq_true_eq]
      omega
  rcases Nat.lt_or_ge c 0x10000 with h3 | h3
  · refine ⟨0xE0 + c / 4096, [0x80 + c / 64 % 64, 0x80 + c % 64], ?_, ?_, ?_⟩
    · unfold encodeCp
      rw [if_neg (by omega), if_neg (by omega), if_pos h3]
    · unfold needed
      rw [if_neg (by omega), if_neg (by omega), if_neg (by omega),
        if_pos (by omega)]
      simp
    · simp only [List.all_cons, List.all_nil, Bool.and_true, Bool.and_eq_true,
        isCont, decide_eq_true_eq]
      omega
  · refine ⟨0xF0 + c / 262144,
      [0x80 + c / 4096 % 64, 0x80 + c / 64 % 64, 0x80 + c % 64], ?_, ?_, ?_⟩
    · unfold encodeCp
      rw [if_neg (by omega), if_neg (by omega), if_neg (by omega)]
    · unfold needed
      rw [if_neg (by omega), if_neg (by omega), if_neg (by omega),
        if_neg (by omega), if_pos (by omega)]
      simp
    · simp only [List.all_cons, List.all_nil, Bool.and_true, Bool.and_eq_true,
        isCont, decide_eq_true_eq]
      omega

lemma strict_front_incomplete (c : Nat) (hc : ValidCp c) (P : List Nat)
    (hP : P <+: encodeCp c) (hlen : P.length < (encodeCp c).length) :
    IncompleteBuf P := by
  obtain ⟨b, t, he, hn, hall⟩ := encodeCp_head_needed c hc
  cases P with
  | nil => exact Or.inl rfl
  | cons x xs =>
    right
    rw [he] at hP hlen
    obtain ⟨u, hu⟩ := hP
    simp only [List.cons_append] at hu
    injection hu with h1 h2
    subst h1
    have hxs : xs <+: t := ⟨u, h2⟩
    refine ⟨x, xs, rfl, ?_, ?_⟩
    · have := hxs.length_le
      simp only [List.length_cons] at hlen
      omega
    · rw [List.all_eq_true] at hall ⊢
      exact fun x hx => hall x (hxs.subset hx)

lemma incomplete_encode_nil (s : List Nat) (hs : ValidSeq s)
    (h : IncompleteBuf (utf8Encode s)) : s = [] := by
  cases s with
  | nil => rfl
  | cons c cs =>
    exfalso
    obtain ⟨b, t, he, hn, _⟩ :=
      encodeCp_head_needed c (hs c (List.mem_cons_self _ _))
    have henc : utf8Encode (c :: cs) = b :: (t ++ utf8Encode cs) := by
      simp [utf8Encode, he]
    rcases h with habs | ⟨b2, t2, he2, hlen2, _⟩
    · rw [henc] at habs
      simp at habs
    · rw [henc] at he2
      injection he2 with h1 h2
      subst h1
      subst h2
      rw [hn] at hlen2
      simp only [List.length_append] at hlen2
      omega

lemma decode_front_part (s : List Nat) (hs : ValidSeq s) :
    ∀ P, P <+: utf8Encode s →
    ∃ s1 s2 r, s = s1 ++ s2 ∧ P = utf8Encode s1 ++ r ∧ IncompleteBuf r ∧
      List.foldl step ([], []) P = (s1, r) := by
  induction s with
  | nil =>
    intro P hP
    have hP0 : P = [] := by
      have : utf8Encode [] = ([] : List Nat) := by simp [utf8Encode]
      rw [this] at hP
      exact List.prefix_nil.mp hP
    subst hP0
    exact ⟨[], [], [], rfl, by simp [utf8Encode], Or.inl rfl, rfl⟩
  | cons c cs ih =>
    intro P hP
    have hc : ValidCp c := hs c (List.mem_cons_self _ _)
    have hcs : ValidSeq cs := fun x hx => hs x (List.mem_cons_of_mem _ hx)
    have henc : utf8Encode (c :: cs) = encodeCp c ++ utf8Encode cs := by
      simp [utf8Encode]
    rw [henc] at hP
    rcases Nat.lt_or_ge P.length (encodeCp c).length with hlt | hge
    · have hPc : P <+: encodeCp c :=
        List.prefix_of_prefix_length_le hP (List.prefix_append _ _)
          (le_of_lt hlt)
      have hinc : IncompleteBuf P := strict_front_incomplete c hc P hPc hlt
      exact ⟨[], c :: cs, P, rfl, by simp [utf8Encode], hinc,
        incomplete_foldl P hinc⟩
    · have hs1 : encodeCp c <+: P :=
        List.prefix_of_prefix_length_le (List.prefix_append _ _) hP hge
      obtain ⟨P2, rfl⟩ := hs1
      have hP2 : P2 <+: utf8Encode cs := by
        obtain ⟨u, hu⟩ := hP
        rw [List.append_assoc] at hu
        exact ⟨u, List.append_cancel_left hu⟩
      obtain ⟨s1, s2, r, hsplit, hPr, hinc, hfold⟩ := ih hcs P2 hP2
      refine ⟨c :: s1, s2, r, by rw [List.cons_append, ← hsplit], ?_, hinc, ?_⟩
      · rw [hPr]
        simp [utf8Encode]
      · rw [List.foldl_append, foldl_encodeCp c hc,
          foldl_step_out P2 [c] [], hfold]
        simp

lemma parseChunks_flatten (chunks : List (List Nat)) :
    ∀ p s2, ValidSeq s2 → IncompleteBuf p →
    p ++ chunks.flatten = utf8Encode s2 →
    (parseChunks p chunks).flatten = s2 := by
  induction chunks with
  | nil =>
    intro p s2 hv hp hfl
    simp only [List.flatten_nil, List.append_nil] at hfl
    have hs2 : s2 = [] := incomplete_encode_nil s2 hv (by rwa [← hfl])
    subst hs2
    simp [parseChunks]
  | cons c cs ih =>
    intro p s2 hv hp hfl
    have hpref : (p ++ c) <+: utf8Encode s2 := by
      refine ⟨cs.flatten, ?_⟩
      rw [← hfl]
      simp [List.append_assoc]
    obtain ⟨s1, s3, r, hsplit, hPr, hinc, hfold⟩ :=
      decode_front_part s2 hv (p ++ c) hpref
    have hdc : decodeChunk p c = (s1, r) := by
      rw [decodeChunk_from_pend p c hp, hfold]
    have hv3 : ValidSeq s3 := by
      intro x hx
      exact hv x (by rw [hsplit]; exact List.mem_append_right _ hx)
    have hv1 : ValidSeq s1 := by
      intro x hx
      exact hv x (by rw [hsplit]; exact List.mem_append_left _ hx)
    have hrest : r ++ cs.flatten = utf8Encode s3 := by
      have h1 : utf8Encode s2 = utf8Encode s1 ++ utf8Encode s3 := by
        rw [hsplit]
        simp [utf8Encode]
      have h2 : (utf8Encode s1 ++ r) ++ cs.flatten =
          utf8Encode s1 ++ utf8Encode s3 := by
        rw [← hPr, ← h1, ← hfl]
        simp [List.append_assoc]
      rw [List.append_assoc] at h2
      exact List.append_cancel_left h2
    have ihh := ih r s3 hv3 hinc hrest
    simp only [parseChunks, hdc]
    by_cases h1 : s1 = []
    · rw [hsplit, h1]
      simp [h1, ihh]
    · rw [hsplit]
      simp [h1, ihh]

/-- C3: for every sequence of Unicode code points, splitting its UTF-8
encoding into arbitrary chunks (including splits inside a multi-byte
character) does not change what parseStreamingResponse yields: the
concatenation of the yielded fragments equals the decoded text, the same
as for the single-chunk delivery, so no fragment is lost, reordered,
duplicated or truncated. -/
theorem C3_chunking_preserves_stream (s : List Nat) (chunks : List (List Nat))
    (hv : ValidSeq s) (hfl : chunks.flatten = utf8Encode s) :
    (parseStreamingResponse chunks).flatten = s ∧
    (parseStreamingResponse [utf8Encode s]).flatten = s ∧
    (parseStreamingResponse chunks).flatten =
      (parseStreamingResponse [utf8Encode s]).flatten := by
  have h1 : (parseStreamingResponse chunks).flatten = s :=
    parseChunks_flatten chunks [] s hv (Or.inl rfl) (by simpa using hfl)
  have h2 : (parseStreamingResponse [utf8Encode s]).flatten = s :=
    parseChunks_flatten [utf8Encode s] [] s hv (Or.inl rfl) (by simp)
  exact ⟨h1, h2, by rw [h1, h2]⟩

/-- C3 witness: the two-byte character with code point 233 split across
two single-byte chunks decodes to the same text as the unsplit delivery. -/
theorem C3_witness :
    ValidSeq [233] ∧
    ([[0xC3], [0xA9]] : List (List Nat)).flatten = utf8Encode [233] ∧
    ((parseStreamingResponse [[0xC3], [0xA9]]).flatten = [233] ∧
     (parseStreamingResponse [utf8Encode [233]]).flatten = [233] ∧
     (parseStreamingResponse [[0xC3], [0xA9]]).flatten =
       (parseStreamingResponse [utf8Encode [233]]).flatten) :=
  ⟨by decide, by decide,
   C3_chunking_preserves_stream [233] [[0xC3], [0xA9]] (by decide) (by decide)⟩

end UTF8

end NBER
